import Mathlib

/-!
Verification of the glacier-flow-model flow-routing engine.

Shallow embedding of the core routines of `glacier_flow_model`:
`fracd8/direction.py` (aspect classification), `fracd8/limited.py`
(`fracd8_lim`), `fracd8/infinite.py` (`fracd8_inf`), `fracd8/flow.py`
(mode selector `fracd8`), `utils/store.py` (`LiFoStack` / `ArrayStore`),
and the relevant pieces of `model.py` (`simulate`, the velocity step of
`_flow`).

Grids are modelled as total functions from integer (row, col) positions to
rationals; machine floats become exact rationals.  The per-cell loops of the
routers scatter-add into a zero-initialised output grid; they are embedded
as left folds of point-update steps over the list of interior cells, in the
same row-major order as the Python loops.
-/

namespace GFM

/-- A grid position `(row, col)`. -/
abbrev Pos : Type := ℤ × ℤ

/-- A raster layer: total map from positions to values. -/
abbrev Grid : Type := Pos → ℚ

/-- The material threshold `0.00001` from `limited.py` / `infinite.py`. -/
def matEps : ℚ := 1 / 100000

/-- Scatter-add a value at one position (`h_flow[pos] += v`). -/
def addAt (g : Grid) (p : Pos) (v : ℚ) : Grid :=
  fun q => if q = p then g q + v else g q

/-- The D8 position list `pos` built at `(y, x)` in `direction.py`,
`limited.py` and `infinite.py`; index `0` is the cell itself, `1..8` its
eight neighbours in the fixed enumeration order. -/
def pos8 (y x : ℤ) : List Pos :=
  [(y, x), (y + 1, x + 1), (y, x + 1), (y - 1, x + 1), (y - 1, x),
   (y - 1, x - 1), (y, x - 1), (y + 1, x - 1), (y + 1, x)]

/-- `position(x, y, n)` of `direction.py` / `infinite.py`: D8 neighbour of
`(y, x)` in direction `n` (`n = 0` is the cell itself). -/
def position (x y : ℤ) (n : ℕ) : Pos :=
  (pos8 y x).getD n (y, x)

/-- The interior cells `(y, x)`, `1 ≤ y ≤ rows - 2`, `1 ≤ x ≤ cols - 2`, in
the row-major order of the Python double loop `for y in range(1, rows - 1):
for x in range(1, cols - 1)`. -/
def interiorCells (rows cols : ℕ) : List Pos :=
  (List.range' 1 (rows - 2)).flatMap
    (fun (y : ℕ) =>
      (List.range' 1 (cols - 2)).map (fun (x : ℕ) => ((y : ℤ), (x : ℤ))))

/-- All cells of a `rows × cols` grid, row-major. -/
def allCells (rows cols : ℕ) : List Pos :=
  (List.range rows).flatMap
    (fun (y : ℕ) => (List.range cols).map (fun (x : ℕ) => ((y : ℤ), (x : ℤ))))

/-- Decidable interior test: `(y, x)` with `1 ≤ y < rows - 1` and
`1 ≤ x < cols - 1`. -/
def isInterior (rows cols : ℕ) (q : Pos) : Bool :=
  decide (1 ≤ q.1) && decide (q.1 < (rows : ℤ) - 1) &&
  decide (1 ≤ q.2) && decide (q.2 < (cols : ℤ) - 1)

/-- One step of the aspect scan: keep the incumbent `(asp_0, dz)` unless the
candidate's drop is strictly greater. -/
def aspScanStep (drop : ℕ → ℚ) (st : ℕ × ℚ) (i : ℕ) : ℕ × ℚ :=
  if drop i > st.2 then (i, drop i) else st

/-- The drop `ele_0 - ele[pos[i]]` of neighbour `i` of cell `(y, x)`. -/
def dropAt (ele : Grid) (y x : ℤ) (i : ℕ) : ℚ :=
  ele (y, x) - ele ((pos8 y x).getD i (y, x))

/-- The inner aspect classification of `classify_aspect` (and the identical
loops in `fracd8_lim` and `aspect`): scan neighbours `1..8` starting from
`asp_0 = 0`, `dz = 0`, replacing the winner only on a strictly greater
drop. -/
def aspCell (ele : Grid) (y x : ℤ) : ℕ :=
  ((List.range' 1 8).foldl (aspScanStep (dropAt ele y x)) (0, 0)).1

/-- `classify_aspect(ele)` of `direction.py`.  The Python loop writes
`asp[pos_0]` once per interior cell, reading only `ele`, into a
zero-initialised array; this is the resulting pointwise map. -/
def classify_aspect (ele : Grid) (rows cols : ℕ) : Pos → ℕ :=
  fun q => if isInterior rows cols q then aspCell ele q.1 q.2 else 0

/-- The body of the `fracd8_lim` loop for one interior cell `p`: classify
the aspect, then scatter the retained and moved shares of `h[p]` into the
accumulator grid `g`. -/
def limStep (ele u h : Grid) (res : ℚ) (g : Grid) (p : Pos) : Grid :=
  let asp0 := aspCell ele p.1 p.2
  let h0 := h p
  if h0 < matEps then g
  else if asp0 = 0 then addAt g p h0
  else
    let u0 := u p
    let fraction := min u0 (9999 / 10000 * res) / res
    let posi := (pos8 p.1 p.2).getD asp0 p
    addAt (addAt g p (h0 * (1 - fraction))) posi (h0 * fraction)

/-- `fracd8_lim(ele, u, h, res)` of `limited.py`: fold the per-cell flow
step over all interior cells starting from the zero grid, and return the
aspect grid computed by the same loop. -/
def fracd8_lim (ele u h : Grid) (res : ℚ) (rows cols : ℕ) :
    Grid × (Pos → ℕ) :=
  ((interiorCells rows cols).foldl (limStep ele u h res) (fun _ => 0),
   classify_aspect ele rows cols)

/-- Per-cell contribution of source cell `p` to output cell `q` in
`fracd8_lim`: the amount the loop body for `p` adds at `q`. -/
def limContrib (ele u h : Grid) (res : ℚ) (p q : Pos) : ℚ :=
  let asp0 := aspCell ele p.1 p.2
  let h0 := h p
  if h0 < matEps then 0
  else if asp0 = 0 then (if q = p then h0 else 0)
  else
    let fraction := min (u p) (9999 / 10000 * res) / res
    let posi := (pos8 p.1 p.2).getD asp0 p
    (if q = p then h0 * (1 - fraction) else 0) +
      (if q = posi then h0 * fraction else 0)

/-- Python's `int()` on a rational: truncation toward zero. -/
def pytrunc (q : ℚ) : ℤ :=
  if 0 ≤ q then ⌊q⌋ else ⌈q⌉

/-- `aspect(ele)` of `infinite.py`: the same per-cell classification as
`classify_aspect`, border ring left unwritten (held at the array's initial
fill). -/
def aspect (ele : Grid) (rows cols : ℕ) : Pos → ℕ :=
  fun q => if isInterior rows cols q then aspCell ele q.1 q.2 else 0

/-- The hop walk of `fracd8_inf`: repeat `n` times
`y_i, x_i = position(x_i, y_i, asp[y_i, x_i])` on the fixed direction grid
`asp`. -/
def walk (asp : Pos → ℕ) (p : Pos) : ℕ → Pos
  | 0 => p
  | n + 1 => walk asp (position p.2 p.1 (asp p)) n

/-- The body of the `fracd8_inf` loop for one interior cell `p`: follow the
direction chain for `offset = min(int(frac), max_offset)` hops (an empty
walk when that integer is negative, as with Python's `range`), then scatter
the two shares at the landing cell and the landing cell's own direction
neighbour. -/
def infStep (u h : Grid) (res : ℚ) (max_offset : ℤ) (asp : Pos → ℕ)
    (g : Grid) (p : Pos) : Grid :=
  let h0 := h p
  if h0 < matEps then g
  else if asp p = 0 then addAt g p h0
  else
    let frac := u p / res
    let offset := min (pytrunc frac) max_offset
    let land := walk asp p offset.toNat
    let share := frac - (pytrunc frac : ℚ)
    addAt (addAt g land (h0 * (1 - share)))
      (position land.2 land.1 (asp land)) (h0 * share)

/-- Per-cell contribution of source cell `p` to output cell `q` in
`fracd8_inf`. -/
def infContrib (u h : Grid) (res : ℚ) (max_offset : ℤ) (asp : Pos → ℕ)
    (p q : Pos) : ℚ :=
  let h0 := h p
  if h0 < matEps then 0
  else if asp p = 0 then (if q = p then h0 else 0)
  else
    let frac := u p / res
    let offset := min (pytrunc frac) max_offset
    let land := walk asp p offset.toNat
    let share := frac - (pytrunc frac : ℚ)
    (if q = land then h0 * (1 - share) else 0) +
      (if q = position land.2 land.1 (asp land) then h0 * share else 0)

/-- `fracd8_inf(ele, u, h, res, max_offset)` of `infinite.py`: classify the
aspect once from the pre-flow elevation, then fold the hop-walk flow step
over all interior cells starting from the zero grid. -/
def fracd8_inf (ele u h : Grid) (res : ℚ) (max_offset : ℤ)
    (rows cols : ℕ) : Grid × (Pos → ℕ) :=
  let asp := aspect ele rows cols
  ((interiorCells rows cols).foldl (infStep u h res max_offset asp)
      (fun _ => 0),
   asp)

/-- `u.max()`: the maximum of a layer over all cells of the grid (assumes a
nonempty grid, as numpy does). -/
def gridMax (u : Grid) (rows cols : ℕ) : ℚ :=
  (allCells rows cols).foldl (fun m p => max m (u p)) (u (0, 0))

/-- `fracd8(ele, u, h, res, max_offset)` of `flow.py`: choose the limited
router when `max_offset < 1 or u.max() < res`, the infinite router
otherwise, and report the mode label. -/
def fracd8 (ele u h : Grid) (res : ℚ) (max_offset : ℤ) (rows cols : ℕ) :
    Grid × (Pos → ℕ) × String :=
  if max_offset < 1 ∨ gridMax u rows cols < res then
    let r := fracd8_lim ele u h res rows cols
    (r.1, r.2, "limited")
  else
    let r := fracd8_inf ele u h res max_offset rows cols
    (r.1, r.2, "infinite")

/-! ### `utils/store.py`: `LiFoStack` and `ArrayStore.mean` -/

/-- `LiFoStack` of `store.py`: a capacity-bounded snapshot buffer. -/
structure LiFoStack (α : Type) where
  size : ℕ
  stack : List α

/-- `LiFoStack.push`: append the layer; if the length now exceeds the
capacity, `pop(0)` removes the front (oldest) element. -/
def LiFoStack.push (s : LiFoStack α) (layer : α) : LiFoStack α :=
  let st := s.stack ++ [layer]
  { s with stack := if s.size < st.length then st.tail else st }

/-- `LiFoStack.pop`: return `self._stack[-1]`, the most recent layer
(without removing it); `none` on an empty buffer, where Python raises. -/
def LiFoStack.pop (s : LiFoStack α) : Option α :=
  s.stack.getLast?

/-- `LiFoStack.all`: the retained snapshots, oldest first. -/
def LiFoStack.all (s : LiFoStack α) : List α :=
  s.stack

/-- `ArrayStore.mean(key)`: `np.nanmean(np.stack(stack), axis=0)`, the
elementwise average of the retained snapshots (no NaNs in the rational
model). -/
def storeMean (s : LiFoStack Grid) : Grid :=
  fun q => ((s.stack.map (fun g => g q)).sum) / (s.stack.length : ℚ)

/-! ### `model.py`: `simulate` and the velocity step of `_flow` -/

/-- The mutable state of a `GlacierFlowModel` that `simulate` reads or
resets: year counter `i`, the `steady_state` flag, the forcing parameter
`ela`, the grids and the statistics series. -/
structure ModelState where
  i : ℕ
  steady_state : Bool
  ela : ℚ
  ele : Grid
  h : Grid
  u : Grid
  mass : List ℚ
  mass_balance : List ℚ
  mass_balance_s_trend : List ℚ
  mass_balance_l_trend : List ℚ

/-- `GlacierFlowModel.simulate(temp_change, max_years)`: if the model is
not in steady state, log a warning and return with the state untouched;
otherwise reset the year counter and the flag and run the year loop.  The
year loop `_iterate` (mass balance, flow, statistics) is abstracted as a
state-transition parameter, since `simulate` only wraps it; the returned
`Bool` records whether the precondition warning was emitted. -/
def simulate (iterate : ModelState → ℚ → ℕ → ModelState) (s : ModelState)
    (temp_change : ℚ) (max_years : ℕ) : ModelState × Bool :=
  if s.steady_state = false then (s, true)
  else
    (iterate { s with i := 0, steady_state := false } temp_change max_years,
     false)

/-- The velocity step of `GlacierFlowModel._flow` (model.py lines
388-392): `ud = (2 a ((f p g sin(slp))^3) h^4) / 4`, `u = ud / 100`, then
clamp cells with `u > 0.99 res` to `0.99 res`.  The upstream trigonometric
slope computation enters as the grid `sinSlp` of `sin(slp)` values. -/
def velocityStep (a f p g : ℚ) (sinSlp h : Grid) (res : ℚ) : Grid :=
  fun q =>
    let ud := (2 * a * ((f * p * g * sinSlp q) ^ (3 : ℕ)) *
      (h q) ^ (4 : ℕ)) / 4
    let u := ud / 100
    if u > 99 / 100 * res then 99 / 100 * res else u

/-! ### Pointwise accounting of the scatter-add folds -/

theorem addAt_apply (g : Grid) (p : Pos) (v : ℚ) (q : Pos) :
    addAt g p v q = g q + (if q = p then v else 0) := by
  unfold addAt
  split <;> simp

theorem limStep_apply (ele u h : Grid) (res : ℚ) (g : Grid) (p q : Pos) :
    limStep ele u h res g p q = g q + limContrib ele u h res p q := by
  simp only [limStep, limContrib, ite_apply, addAt_apply]
  split_ifs <;> ring

theorem infStep_apply (u h : Grid) (res : ℚ) (max_offset : ℤ)
    (asp : Pos → ℕ) (g : Grid) (p q : Pos) :
    infStep u h res max_offset asp g p q =
      g q + infContrib u h res max_offset asp p q := by
  simp only [infStep, infContrib, ite_apply, addAt_apply]
  split_ifs <;> ring

/-- A fold of point-update steps evaluates, at each cell, to the initial
value plus the sum of the per-source contributions. -/
theorem foldl_step_sum (step : Grid → Pos → Grid) (contrib : Pos → Pos → ℚ)
    (hstep : ∀ g p q, step g p q = g q + contrib p q) :
    ∀ (l : List Pos) (z : Grid) (q : Pos),
      l.foldl step z q = z q + (l.map (fun p => contrib p q)).sum := by
  intro l
  induction l with
  | nil => intro z q; simp
  | cons p t ih =>
    intro z q
    rw [List.foldl_cons, ih, hstep]
    simp [add_assoc]

/-- The limited router's thickness output is the zero grid plus the
scatter-add of all per-source contributions. -/
theorem fracd8_lim_eq_sum (ele u h : Grid) (res : ℚ) (rows cols : ℕ)
    (q : Pos) :
    (fracd8_lim ele u h res rows cols).1 q =
      ((interiorCells rows cols).map
        (fun p => limContrib ele u h res p q)).sum := by
  have hs := foldl_step_sum (limStep ele u h res) (limContrib ele u h res)
    (limStep_apply ele u h res) (interiorCells rows cols) (fun _ => 0) q
  simpa [fracd8_lim] using hs

/-- The infinite router's thickness output is the zero grid plus the
scatter-add of all per-source contributions. -/
theorem fracd8_inf_eq_sum (ele u h : Grid) (res : ℚ) (max_offset : ℤ)
    (rows cols : ℕ) (q : Pos) :
    (fracd8_inf ele u h res max_offset rows cols).1 q =
      ((interiorCells rows cols).map
        (fun p => infContrib u h res max_offset
          (aspect ele rows cols) p q)).sum := by
  have hs := foldl_step_sum (infStep u h res max_offset (aspect ele rows cols))
    (infContrib u h res max_offset (aspect ele rows cols))
    (infStep_apply u h res max_offset (aspect ele rows cols))
    (interiorCells rows cols) (fun _ => 0) q
  simpa [fracd8_inf] using hs

/-! ### Characterisation of the aspect scan -/

/-- Invariant of the strict-maximum scan: folding `aspScanStep` over a
strictly increasing index list either leaves the incumbent untouched (all
candidate drops at most the incumbent value) or lands on a candidate from
the list whose drop strictly exceeds the start value, is the tracked value,
and strictly dominates every earlier-enumerated candidate. -/
theorem aspScan_invariant (drop : ℕ → ℚ) :
    ∀ (l : List ℕ) (b : ℕ) (d : ℚ), l.Pairwise (· < ·) →
      (∀ i ∈ l, b < i) →
      d ≤ (l.foldl (aspScanStep drop) (b, d)).2 ∧
      (∀ i ∈ l, drop i ≤ (l.foldl (aspScanStep drop) (b, d)).2) ∧
      (l.foldl (aspScanStep drop) (b, d) = (b, d) ∨
        ((l.foldl (aspScanStep drop) (b, d)).1 ∈ l ∧
         (l.foldl (aspScanStep drop) (b, d)).2 =
           drop (l.foldl (aspScanStep drop) (b, d)).1 ∧
         d < (l.foldl (aspScanStep drop) (b, d)).2 ∧
         ∀ i ∈ l, i < (l.foldl (aspScanStep drop) (b, d)).1 →
           drop i < (l.foldl (aspScanStep drop) (b, d)).2)) := by
  intro l
  induction l with
  | nil => intro b d _ _; simp
  | cons j t ih =>
    intro b d hp hb
    have hpt : t.Pairwise (· < ·) := (List.pairwise_cons.mp hp).2
    have hjt : ∀ i ∈ t, j < i := (List.pairwise_cons.mp hp).1
    rw [List.foldl_cons]
    by_cases hj : drop j > d
    · have hstep : aspScanStep drop (b, d) j = (j, drop j) := by
        simp [aspScanStep, hj]
      rw [hstep]
      obtain ⟨h1, h2, h3⟩ := ih j (drop j) hpt hjt
      refine ⟨le_trans (le_of_lt hj) h1, ?_, ?_⟩
      · intro i hi
        rcases List.mem_cons.mp hi with hij | hit
        · exact hij ▸ h1
        · exact h2 i hit
      · right
        rcases h3 with heq | ⟨hm, he, hd, ht⟩
        · rw [heq]
          refine ⟨List.mem_cons_self j t, rfl, hj, ?_⟩
          intro i hi hlt
          rcases List.mem_cons.mp hi with hij | hit
          · omega
          · exact absurd hlt (by have := hjt i hit; omega)
        · refine ⟨List.mem_cons_of_mem j hm, he, lt_trans hj hd, ?_⟩
          intro i hi hlt
          rcases List.mem_cons.mp hi with hij | hit
          · exact hij ▸ hd
          · exact ht i hit hlt
    · have hstep : aspScanStep drop (b, d) j = (b, d) := by
        simp [aspScanStep, hj]
      rw [hstep]
      have hbt : ∀ i ∈ t, b < i := fun i hi => hb i (List.mem_cons_of_mem j hi)
      obtain ⟨h1, h2, h3⟩ := ih b d hpt hbt
      refine ⟨h1, ?_, ?_⟩
      · intro i hi
        rcases List.mem_cons.mp hi with hij | hit
        · exact hij ▸ le_trans (not_lt.mp hj) h1
        · exact h2 i hit
      · rcases h3 with heq | ⟨hm, he, hd, ht⟩
        · exact Or.inl heq
        · right
          refine ⟨List.mem_cons_of_mem j hm, he, hd, ?_⟩
          intro i hi hlt
          rcases List.mem_cons.mp hi with hij | hit
          · exact hij ▸ lt_of_le_of_lt (not_lt.mp hj) hd
          · exact ht i hit hlt

/-- Extensional description of the per-cell aspect classification: a pit
(`0`) exactly when no neighbour has a strictly positive drop; otherwise the
result is the earliest-enumerated neighbour attaining the strictly positive
maximum drop. -/
theorem aspCell_spec (ele : Grid) (y x : ℤ) :
    (aspCell ele y x = 0 →
      ∀ i, 1 ≤ i → i ≤ 8 → dropAt ele y x i ≤ 0) ∧
    (aspCell ele y x ≠ 0 →
      1 ≤ aspCell ele y x ∧ aspCell ele y x ≤ 8 ∧
      0 < dropAt ele y x (aspCell ele y x) ∧
      (∀ i, 1 ≤ i → i ≤ 8 →
        dropAt ele y x i ≤ dropAt ele y x (aspCell ele y x)) ∧
      (∀ i, 1 ≤ i → i ≤ 8 → i < aspCell ele y x →
        dropAt ele y x i < dropAt ele y x (aspCell ele y x))) := by
  have hpair : (List.range' 1 8).Pairwise (· < ·) := by decide
  have hpos : ∀ i ∈ List.range' 1 8, 0 < i := by decide
  obtain ⟨h1, h2, h3⟩ :=
    aspScan_invariant (dropAt ele y x) (List.range' 1 8) 0 0 hpair hpos
  have hmem : ∀ i : ℕ, i ∈ List.range' 1 8 ↔ 1 ≤ i ∧ i ≤ 8 := by
    intro i
    rw [List.mem_range'_1]
    omega
  have hasp : aspCell ele y x =
      ((List.range' 1 8).foldl (aspScanStep (dropAt ele y x)) (0, 0)).1 := rfl
  rcases h3 with heq | ⟨hm, he, hd, ht⟩
  · have h0 : aspCell ele y x = 0 := by rw [hasp, heq]
    constructor
    · intro _ i hi1 hi8
      have hle := h2 i ((hmem i).mpr ⟨hi1, hi8⟩)
      rw [heq] at hle
      exact hle
    · intro hne
      exact absurd h0 hne
  · have hrange := (hmem _).mp hm
    have hne : aspCell ele y x ≠ 0 := by
      rw [hasp]
      omega
    constructor
    · intro h0
      exact absurd h0 hne
    · intro _
      rw [he] at h2 hd ht
      rw [hasp]
      refine ⟨hrange.1, hrange.2, hd, ?_, ?_⟩
      · intro i hi1 hi8
        exact h2 i ((hmem i).mpr ⟨hi1, hi8⟩)
      · intro i hi1 hi8 hlt
        exact ht i ((hmem i).mpr ⟨hi1, hi8⟩) hlt

/-! ### The cell lists: membership, distinctness, sums -/

theorem mem_interiorCells (rows cols : ℕ) (q : Pos) :
    q ∈ interiorCells rows cols ↔ isInterior rows cols q = true := by
  obtain ⟨a, b⟩ := q
  simp only [interiorCells, List.mem_flatMap, List.mem_map, List.mem_range'_1,
    isInterior, Bool.and_eq_true, decide_eq_true_eq, Prod.mk.injEq]
  constructor
  · rintro ⟨y, hy, x, hx, h1, h2⟩
    refine ⟨⟨⟨?_, ?_⟩, ?_⟩, ?_⟩ <;> omega
  · rintro ⟨⟨⟨ha1, ha2⟩, hb1⟩, hb2⟩
    exact ⟨a.toNat, by omega, b.toNat, by omega, by omega, by omega⟩

theorem mem_allCells (rows cols : ℕ) (q : Pos) :
    q ∈ allCells rows cols ↔
      0 ≤ q.1 ∧ q.1 < (rows : ℤ) ∧ 0 ≤ q.2 ∧ q.2 < (cols : ℤ) := by
  obtain ⟨a, b⟩ := q
  simp only [allCells, List.mem_flatMap, List.mem_map, List.mem_range,
    Prod.mk.injEq]
  constructor
  · rintro ⟨y, hy, x, hx, h1, h2⟩
    refine ⟨?_, ?_, ?_, ?_⟩ <;> omega
  · rintro ⟨ha1, ha2, hb1, hb2⟩
    exact ⟨a.toNat, by omega, b.toNat, by omega, by omega, by omega⟩

/-- A row-by-column pair list over duplicate-free index lists is
duplicate-free. -/
theorem nodup_pairList (R C : List ℕ) (hR : R.Nodup) (hC : C.Nodup) :
    (R.flatMap
      (fun (y : ℕ) => C.map (fun (x : ℕ) => (((y : ℤ), (x : ℤ)) : Pos)))).Nodup := by
  rw [List.nodup_flatMap]
  constructor
  · intro y _
    refine hC.map ?_
    intro x1 x2 hx
    simpa using hx
  · refine hR.imp ?_
    intro a b hab z hz1 hz2
    simp only [List.mem_map] at hz1 hz2
    obtain ⟨x1, _, h1⟩ := hz1
    obtain ⟨x2, _, h2⟩ := hz2
    rw [← h1] at h2
    have hba : (b : ℤ) = (a : ℤ) := congrArg Prod.fst h2
    exact hab (by omega)

theorem interiorCells_nodup (rows cols : ℕ) :
    (interiorCells rows cols).Nodup :=
  nodup_pairList _ _ (List.nodup_range' _ _) (List.nodup_range' _ _)

theorem allCells_nodup (rows cols : ℕ) : (allCells rows cols).Nodup :=
  nodup_pairList _ _ (List.nodup_range rows) (List.nodup_range cols)

/-- Any cell of the `pos8` neighbourhood of an interior cell lies on the
grid. -/
theorem pos8_getD_mem_allCells (rows cols : ℕ) (p : Pos)
    (hp : isInterior rows cols p = true) (n : ℕ) (hn : n ≤ 8) :
    (pos8 p.1 p.2).getD n p ∈ allCells rows cols := by
  obtain ⟨a, b⟩ := p
  simp only [isInterior, Bool.and_eq_true, decide_eq_true_eq] at hp
  rw [mem_allCells]
  interval_cases n <;> simp [pos8] <;> omega

/-- A genuine D8 direction (`1..8`) points to a cell different from the
origin. -/
theorem pos8_getD_ne (y x : ℤ) (n : ℕ) (h1 : 1 ≤ n) (h8 : n ≤ 8) :
    (pos8 y x).getD n (y, x) ≠ (y, x) := by
  interval_cases n <;> simp [pos8, Prod.ext_iff] <;> omega

/-- Variant of `pos8_getD_ne` for an un-destructured position. -/
theorem pos8_getD_ne_self (p : Pos) (n : ℕ) (h1 : 1 ≤ n) (h8 : n ≤ 8) :
    (pos8 p.1 p.2).getD n p ≠ p := by
  obtain ⟨y, x⟩ := p
  exact pos8_getD_ne y x n h1 h8

/-- An interior cell is a grid cell. -/
theorem interior_mem_allCells (rows cols : ℕ) (p : Pos)
    (hp : isInterior rows cols p = true) : p ∈ allCells rows cols := by
  obtain ⟨a, b⟩ := p
  simp only [isInterior, Bool.and_eq_true, decide_eq_true_eq] at hp
  rw [mem_allCells]
  omega

theorem sum_map_ite_of_not_mem (l : List Pos) (t : Pos) (v : ℚ)
    (ht : t ∉ l) :
    (l.map (fun q => if q = t then v else 0)).sum = 0 := by
  induction l with
  | nil => simp
  | cons a l ih =>
    have hat : a ≠ t := fun h => ht (h ▸ List.mem_cons_self a l)
    have htl : t ∉ l := fun h => ht (List.mem_cons_of_mem a h)
    simp [hat, ih htl]

/-- Summing a point mass over a duplicate-free list containing its target
yields the mass. -/
theorem sum_map_ite_of_mem (l : List Pos) (t : Pos) (v : ℚ)
    (hl : l.Nodup) (ht : t ∈ l) :
    (l.map (fun q => if q = t then v else 0)).sum = v := by
  induction l with
  | nil => cases ht
  | cons a l ih =>
    rcases List.mem_cons.mp ht with rfl | htl
    · have hnot : t ∉ l := (List.nodup_cons.mp hl).1
      simp [sum_map_ite_of_not_mem l t v hnot]
    · have hat : a ≠ t := by
        intro h
        exact (List.nodup_cons.mp hl).1 (h ▸ htl)
      simp [hat, ih (List.nodup_cons.mp hl).2 htl]

/-- Splitting a sum over a duplicate-free list at one of its members. -/
theorem sum_map_split_at (l : List Pos) (t : Pos) (f : Pos → ℚ)
    (hl : l.Nodup) (ht : t ∈ l) :
    (l.map f).sum = f t + (l.map (fun s => if s = t then 0 else f s)).sum := by
  induction l with
  | nil => cases ht
  | cons a l ih =>
    rcases List.mem_cons.mp ht with rfl | htl
    · have hnot : t ∉ l := (List.nodup_cons.mp hl).1
      have hcongr : l.map (fun s => if s = t then 0 else f s) = l.map f := by
        apply List.map_congr_left
        intro s hs
        rw [if_neg (show s ≠ t by
          intro he
          exact hnot (he ▸ hs))]
      simp [hcongr]
    · have hat : a ≠ t := fun he => (List.nodup_cons.mp hl).1 (he ▸ htl)
      have := ih (List.nodup_cons.mp hl).2 htl
      simp only [List.map_cons, List.sum_cons, this, if_neg hat]
      ring

theorem sum_map_add_distrib (l : List Pos) (f g : Pos → ℚ) :
    (l.map (fun q => f q + g q)).sum = (l.map f).sum + (l.map g).sum := by
  induction l with
  | nil => simp
  | cons a l ih =>
    simp only [List.map_cons, List.sum_cons, ih]
    ring

/-- Exchanging the order of a double list sum. -/
theorem sum_map_swap (A B : List Pos) (f : Pos → Pos → ℚ) :
    (A.map (fun a => (B.map (f a)).sum)).sum =
      (B.map (fun b => (A.map (fun a => f a b)).sum)).sum := by
  induction A with
  | nil => simp
  | cons a A ih =>
    simp only [List.map_cons, List.sum_cons, ih]
    rw [← sum_map_add_distrib]

/-- Total mass of a layer over the whole grid. -/
def totalMass (g : Grid) (rows cols : ℕ) : ℚ :=
  ((allCells rows cols).map g).sum

/-- Total mass of a layer over the interior cells. -/
def interiorMass (g : Grid) (rows cols : ℕ) : ℚ :=
  ((interiorCells rows cols).map g).sum

/-- What one source cell contributes in total across the whole grid in the
limited router: its full thickness when at or above the material threshold,
nothing otherwise. -/
theorem sum_limContrib_over_grid (ele u h : Grid) (res : ℚ)
    (rows cols : ℕ) (p : Pos) (hp : isInterior rows cols p = true) :
    ((allCells rows cols).map (fun q => limContrib ele u h res p q)).sum =
      if h p < matEps then 0 else h p := by
  obtain ⟨py, px⟩ := p
  by_cases h1 : h (py, px) < matEps
  · simp [limContrib, h1]
  · rw [if_neg h1]
    by_cases h2 : aspCell ele py px = 0
    · have hc : ∀ q, limContrib ele u h res (py, px) q =
          if q = (py, px) then h (py, px) else 0 := by
        intro q
        simp [limContrib, h1, h2]
      simp only [hc]
      exact sum_map_ite_of_mem _ _ _ (allCells_nodup rows cols)
        (interior_mem_allCells rows cols (py, px) hp)
    · obtain ⟨ha1, ha8, -, -, -⟩ := (aspCell_spec ele py px).2 h2
      have hc : ∀ q, limContrib ele u h res (py, px) q =
          (if q = (py, px) then
            h (py, px) * (1 - min (u (py, px)) (9999 / 10000 * res) / res)
          else 0) +
          (if q = (pos8 py px).getD (aspCell ele py px) (py, px) then
            h (py, px) * (min (u (py, px)) (9999 / 10000 * res) / res)
          else 0) := by
        intro q
        simp [limContrib, h1, h2]
      simp only [hc]
      rw [sum_map_add_distrib]
      rw [sum_map_ite_of_mem _ _ _ (allCells_nodup rows cols)
        (interior_mem_allCells rows cols (py, px) hp)]
      rw [sum_map_ite_of_mem _ _ _ (allCells_nodup rows cols)
        (pos8_getD_mem_allCells rows cols (py, px) hp _ ha8)]
      ring

/-- Exact mass bookkeeping of one `fracd8_lim` call: the total mass of the
output grid is the total input thickness of the interior cells at or above
the material threshold.  Border mass and below-threshold interior mass are
dropped; nothing else is lost. -/
theorem fracd8_lim_total_mass_eq (ele u h : Grid) (res : ℚ)
    (rows cols : ℕ) :
    totalMass ((fracd8_lim ele u h res rows cols).1) rows cols =
      ((interiorCells rows cols).map
        (fun p => if h p < matEps then 0 else h p)).sum := by
  unfold totalMass
  have hmap : (allCells rows cols).map ((fracd8_lim ele u h res rows cols).1)
      = (allCells rows cols).map (fun q =>
          ((interiorCells rows cols).map
            (fun p => limContrib ele u h res p q)).sum) := by
    apply List.map_congr_left
    intro q _
    exact fracd8_lim_eq_sum ele u h res rows cols q
  rw [hmap, sum_map_swap]
  apply congrArg List.sum
  apply List.map_congr_left
  intro p hp
  exact sum_limContrib_over_grid ele u h res rows cols p
    ((mem_interiorCells rows cols p).mp hp)

/-! ### The history buffer -/

/-- Folding `push` over a snapshot sequence keeps the capacity and retains
exactly the most recent `size` entries of "old stack, then pushes" (all of
them while they still fit). -/
theorem foldl_push_stack {α : Type} :
    ∀ (layers : List α) (s : LiFoStack α), s.stack.length ≤ s.size →
      (layers.foldl LiFoStack.push s).stack =
        (s.stack ++ layers).drop ((s.stack ++ layers).length - s.size) ∧
      (layers.foldl LiFoStack.push s).size = s.size := by
  intro layers
  induction layers with
  | nil =>
    intro s hle
    simp [Nat.sub_eq_zero_of_le hle]
  | cons l t ih =>
    intro s hle
    rw [List.foldl_cons]
    by_cases hfull : s.size < (s.stack ++ [l]).length
    · have hlen : s.stack.length = s.size := by
        simp only [List.length_append, List.length_cons, List.length_nil]
          at hfull
        omega
      have hpush : (s.push l).stack = (s.stack ++ [l]).tail := by
        simp only [LiFoStack.push]
        rw [if_pos hfull]
      have hpsize : (s.push l).size = s.size := rfl
      have hple : (s.push l).stack.length ≤ (s.push l).size := by
        rw [hpush, hpsize, List.length_tail]
        simp only [List.length_append, List.length_cons, List.length_nil]
        omega
      obtain ⟨ih1, ih2⟩ := ih (s.push l) hple
      refine ⟨?_, by rw [ih2, hpsize]⟩
      rw [ih1, hpush, hpsize]
      by_cases hA : s.stack = []
      · have hz : s.size = 0 := by
          rw [hA] at hlen
          simpa using hlen.symm
        rw [hA, hz]
        simp [List.drop_length]
      · have htail : ((s.stack ++ [l]).tail) ++ t =
            (s.stack ++ (l :: t)).tail := by
          rw [List.tail_append_of_ne_nil hA, List.tail_append_of_ne_nil hA,
            List.append_assoc]
          rfl
        rw [htail, ← List.drop_one, List.drop_drop]
        simp only [List.length_drop]
        congr 1
        have hzlen : (s.stack ++ (l :: t)).length =
            s.stack.length + (t.length + 1) := by
          simp
        omega
    · have hpush : (s.push l).stack = s.stack ++ [l] := by
        simp only [LiFoStack.push]
        rw [if_neg hfull]
      have hpsize : (s.push l).size = s.size := rfl
      have hple : (s.push l).stack.length ≤ (s.push l).size := by
        rw [hpush, hpsize]
        simp only [List.length_append, List.length_cons, List.length_nil]
          at hfull ⊢
        omega
      obtain ⟨ih1, ih2⟩ := ih (s.push l) hple
      refine ⟨?_, by rw [ih2, hpsize]⟩
      rw [ih1, hpush, hpsize, List.append_assoc]
      simp

/-- Aspect directions never exceed 8. -/
theorem aspCell_le_8 (ele : Grid) (y x : ℤ) : aspCell ele y x ≤ 8 := by
  by_cases h : aspCell ele y x = 0
  · omega
  · exact ((aspCell_spec ele y x).2 h).2.1

/-- A nonzero aspect value lies in the direction range `1..8`. -/
theorem aspect_range (ele : Grid) (rows cols : ℕ) (q : Pos)
    (ha : aspect ele rows cols q ≠ 0) :
    1 ≤ aspect ele rows cols q ∧ aspect ele rows cols q ≤ 8 := by
  unfold aspect at ha ⊢
  by_cases hi : isInterior rows cols q
  · rw [if_pos hi] at ha ⊢
    exact ⟨Nat.one_le_iff_ne_zero.mpr ha, aspCell_le_8 ele q.1 q.2⟩
  · rw [if_neg hi] at ha
    exact absurd rfl ha

/-- A genuine direction step moves to a different cell. -/
theorem position_ne_self (p : Pos) (n : ℕ) (h1 : 1 ≤ n) (h8 : n ≤ 8) :
    position p.2 p.1 n ≠ p := by
  obtain ⟨y, x⟩ := p
  simpa [position] using pos8_getD_ne y x n h1 h8

/-- The landing cell of the `fracd8_inf` hop walk for source cell `p`:
follow the precomputed direction grid `min(int(u/res), max_offset)` times
(as a natural number of hops, empty for a negative count). -/
def infLand (ele u : Grid) (res : ℚ) (max_offset : ℤ) (rows cols : ℕ)
    (p : Pos) : Pos :=
  walk (aspect ele rows cols) p (min (pytrunc (u p / res)) max_offset).toNat

/-- The cell one direction step beyond the landing cell, which receives the
fractional share in `fracd8_inf`. -/
def infNext (ele u : Grid) (res : ℚ) (max_offset : ℤ) (rows cols : ℕ)
    (p : Pos) : Pos :=
  position (infLand ele u res max_offset rows cols p).2
    (infLand ele u res max_offset rows cols p).1
    (aspect ele rows cols (infLand ele u res max_offset rows cols p))

/-- The per-source contribution of an eligible cell in the infinite router,
written through the landing cell and its direction neighbour. -/
theorem infContrib_eligible (ele u h : Grid) (res : ℚ) (max_offset : ℤ)
    (rows cols : ℕ) (p q : Pos) (hnlt : ¬ h p < matEps)
    (ha : aspect ele rows cols p ≠ 0) :
    infContrib u h res max_offset (aspect ele rows cols) p q =
      (if q = infLand ele u res max_offset rows cols p then
        h p * (1 - (u p / res - (pytrunc (u p / res) : ℚ))) else 0) +
      (if q = infNext ele u res max_offset rows cols p then
        h p * (u p / res - (pytrunc (u p / res) : ℚ)) else 0) := by
  simp only [infContrib, infLand, infNext]
  rw [if_neg hnlt, if_neg ha]

/-! ### Concrete fixtures used by witnesses and counterexamples -/

/-- A 3 x 3 elevation cone: the centre towers over a flat ring, so every
neighbour ties at the maximum drop and the earliest direction (1) wins. -/
def eleCone : Grid := fun p => if p = (1, 1) then 10 else 0

/-- Unit velocity everywhere. -/
def onesGrid : Grid := fun _ => 1

/-- Flat zero layer. -/
def zeroGrid : Grid := fun _ => 0

/-- Unit thickness at the centre of a 3 x 3 grid. -/
def hCenter : Grid := fun p => if p = (1, 1) then 1 else 0

/-! ### Claims -/

/-- C1: in `fracd8_lim`, every interior cell with thickness at least the
1e-5 threshold and nonzero classified direction moves the fraction
`min(velocity, 0.9999 res) / res` (strictly below 1) of its thickness: the
zero-initialised scatter-add output receives `thickness (1 - fraction)` at
the source and `thickness fraction` at the single downhill neighbour. -/
theorem C1_fracd8_lim_interior_flow (ele u h : Grid) (res : ℚ)
    (rows cols : ℕ) (p : Pos) (hres : 0 < res)
    (hint : isInterior rows cols p = true) (hh : matEps ≤ h p)
    (ha : aspCell ele p.1 p.2 ≠ 0) :
    min (u p) (9999 / 10000 * res) / res < 1 ∧
    (∀ q, (fracd8_lim ele u h res rows cols).1 q =
      ((interiorCells rows cols).map
        (fun s => limContrib ele u h res s q)).sum) ∧
    (pos8 p.1 p.2).getD (aspCell ele p.1 p.2) p ≠ p ∧
    limContrib ele u h res p p =
      h p * (1 - min (u p) (9999 / 10000 * res) / res) ∧
    limContrib ele u h res p ((pos8 p.1 p.2).getD (aspCell ele p.1 p.2) p) =
      h p * (min (u p) (9999 / 10000 * res) / res) := by
  obtain ⟨ha1, ha8, -, -, -⟩ := (aspCell_spec ele p.1 p.2).2 ha
  have hne : (pos8 p.1 p.2).getD (aspCell ele p.1 p.2) p ≠ p :=
    pos8_getD_ne_self p _ ha1 ha8
  have hnlt : ¬ h p < matEps := not_lt.mpr hh
  refine ⟨?_, fun q => fracd8_lim_eq_sum ele u h res rows cols q, hne, ?_, ?_⟩
  · calc min (u p) (9999 / 10000 * res) / res
        ≤ (9999 / 10000 * res) / res := by
          gcongr
          exact min_le_right _ _
      _ = 9999 / 10000 := by
          field_simp
          ring
      _ < 1 := by norm_num
  · simp only [limContrib]
    rw [if_neg hnlt, if_neg ha, if_neg (Ne.symm hne)]
    simp
  · simp only [limContrib]
    rw [if_neg hnlt, if_neg ha, if_neg hne]
    simp

/-- Witness for C1 on a concrete 3 x 3 cone with unit velocity and
resolution. -/
theorem C1_witness :
    ((0 : ℚ) < 1 ∧ isInterior 3 3 (1, 1) = true ∧
      matEps ≤ hCenter (1, 1) ∧ aspCell eleCone 1 1 ≠ 0) ∧
    (min (onesGrid (1, 1)) (9999 / 10000 * 1) / 1 < 1 ∧
    (∀ q, (fracd8_lim eleCone onesGrid hCenter 1 3 3).1 q =
      ((interiorCells 3 3).map
        (fun s => limContrib eleCone onesGrid hCenter 1 s q)).sum) ∧
    (pos8 1 1).getD (aspCell eleCone 1 1) (1, 1) ≠ (1, 1) ∧
    limContrib eleCone onesGrid hCenter 1 (1, 1) (1, 1) =
      hCenter (1, 1) * (1 - min (onesGrid (1, 1)) (9999 / 10000 * 1) / 1) ∧
    limContrib eleCone onesGrid hCenter 1 (1, 1)
        ((pos8 1 1).getD (aspCell eleCone 1 1) (1, 1)) =
      hCenter (1, 1) * (min (onesGrid (1, 1)) (9999 / 10000 * 1) / 1)) :=
  ⟨⟨by norm_num, by decide,
      by norm_num [matEps, hCenter],
      by norm_num [aspCell, aspScanStep, dropAt, pos8, eleCone, List.range',
        List.foldl, Prod.ext_iff]⟩,
    C1_fracd8_lim_interior_flow eleCone onesGrid hCenter 1 3 3 (1, 1)
      (by norm_num) (by decide)
      (by norm_num [matEps, hCenter])
      (by norm_num [aspCell, aspScanStep, dropAt, pos8, eleCone, List.range',
        List.foldl, Prod.ext_iff])⟩

/-- C2: the aspect classifier gives each interior cell the direction of the
strictly positive maximum drop, scanning neighbours 1..8 from
`(direction, drop) = (0, 0)` with a strict comparison, so ties keep the
earlier-enumerated neighbour and cells with no lower neighbour stay 0; the
border ring stays 0. -/
theorem C2_classify_aspect_steepest (ele : Grid) (rows cols : ℕ) (q : Pos) :
    (isInterior rows cols q = false → classify_aspect ele rows cols q = 0) ∧
    (isInterior rows cols q = true →
      (classify_aspect ele rows cols q = 0 →
        ∀ i, 1 ≤ i → i ≤ 8 → dropAt ele q.1 q.2 i ≤ 0) ∧
      (classify_aspect ele rows cols q ≠ 0 →
        1 ≤ classify_aspect ele rows cols q ∧
        classify_aspect ele rows cols q ≤ 8 ∧
        0 < dropAt ele q.1 q.2 (classify_aspect ele rows cols q) ∧
        (∀ i, 1 ≤ i → i ≤ 8 →
          dropAt ele q.1 q.2 i ≤
            dropAt ele q.1 q.2 (classify_aspect ele rows cols q)) ∧
        (∀ i, 1 ≤ i → i ≤ 8 → i < classify_aspect ele rows cols q →
          dropAt ele q.1 q.2 i <
            dropAt ele q.1 q.2 (classify_aspect ele rows cols q)))) := by
  constructor
  · intro hb
    simp [classify_aspect, hb]
  · intro hi
    have hcc : classify_aspect ele rows cols q = aspCell ele q.1 q.2 := by
      simp [classify_aspect, hi]
    rw [hcc]
    exact aspCell_spec ele q.1 q.2

/-- Witness for C2: on the cone all eight drops tie at the maximum and the
earliest-enumerated direction 1 wins; a border cell stays 0. -/
theorem C2_witness :
    isInterior 3 3 ((2 : ℤ), (0 : ℤ)) = false ∧
    classify_aspect eleCone 3 3 (2, 0) = 0 ∧
    classify_aspect eleCone 3 3 (1, 1) = 1 ∧
    dropAt eleCone 1 1 1 = dropAt eleCone 1 1 2 :=
  ⟨by decide,
   (C2_classify_aspect_steepest eleCone 3 3 (2, 0)).1 (by decide),
   by norm_num [classify_aspect, isInterior, aspCell, aspScanStep, dropAt,
     pos8, eleCone, List.range', List.foldl, Prod.ext_iff],
   by norm_num [dropAt, pos8, eleCone, Prod.ext_iff]⟩

/-- C4: the mode selector runs the limited router exactly when
`max_offset < 1` or the grid-wide maximum velocity is strictly below the
resolution, the infinite router otherwise, returning the chosen router's
grids and the matching label. -/
theorem C4_fracd8_mode_selection (ele u h : Grid) (res : ℚ)
    (max_offset : ℤ) (rows cols : ℕ) :
    (max_offset < 1 ∨ gridMax u rows cols < res →
      fracd8 ele u h res max_offset rows cols =
        ((fracd8_lim ele u h res rows cols).1,
         (fracd8_lim ele u h res rows cols).2, "limited")) ∧
    (¬(max_offset < 1 ∨ gridMax u rows cols < res) →
      fracd8 ele u h res max_offset rows cols =
        ((fracd8_inf ele u h res max_offset rows cols).1,
         (fracd8_inf ele u h res max_offset rows cols).2, "infinite")) := by
  constructor
  · intro hc
    simp [fracd8, hc]
  · intro hc
    simp [fracd8, hc]

/-- Witness for C4: on a 3 x 3 grid with unit velocity, resolution 2 picks
the limited branch (`max u < res`) and resolution 1 with `max_offset = 5`
picks the infinite branch. -/
theorem C4_witness :
    ((5 : ℤ) < 1 ∨ gridMax onesGrid 3 3 < 2) ∧
    fracd8 eleCone onesGrid hCenter 2 5 3 3 =
      ((fracd8_lim eleCone onesGrid hCenter 2 3 3).1,
       (fracd8_lim eleCone onesGrid hCenter 2 3 3).2, "limited") ∧
    ¬((5 : ℤ) < 1 ∨ gridMax onesGrid 3 3 < 1) ∧
    fracd8 eleCone onesGrid hCenter 1 5 3 3 =
      ((fracd8_inf eleCone onesGrid hCenter 1 5 3 3).1,
       (fracd8_inf eleCone onesGrid hCenter 1 5 3 3).2, "infinite") :=
  ⟨by norm_num [gridMax, allCells, onesGrid, List.range, List.foldl],
   (C4_fracd8_mode_selection eleCone onesGrid hCenter 2 5 3 3).1
     (by norm_num [gridMax, allCells, onesGrid, List.range, List.foldl]),
   by norm_num [gridMax, allCells, onesGrid, List.range, List.foldl],
   (C4_fracd8_mode_selection eleCone onesGrid hCenter 1 5 3 3).2
     (by norm_num [gridMax, allCells, onesGrid, List.range, List.foldl])⟩

/-- A 5 x 5 plane tilted toward increasing column index. -/
def eleTilt : Grid := fun p => -((p.2 : ℚ))

/-- Velocity 1.5 everywhere: one full hop plus a half share. -/
def uC3 : Grid := fun _ => 3 / 2

/-- Unit thickness at `(2, 1)` of a 5 x 5 grid. -/
def hSrc : Grid := fun p => if p = (2, 1) then 1 else 0

/-- C3: in `fracd8_inf`, an eligible interior cell walks
`min(floor(velocity / resolution), max_offset)` hops along the single
direction grid precomputed from the pre-flow elevation, then deposits
`thickness (1 - share)` at the landing cell and `thickness share` at the
landing cell's own direction neighbour, where `share` is the fractional
part of `velocity / resolution`. -/
theorem C3_fracd8_inf_hop_walk (ele u h : Grid) (res : ℚ) (max_offset : ℤ)
    (rows cols : ℕ) (p : Pos) (hres : 0 < res) (hmo : 0 ≤ max_offset)
    (hint : isInterior rows cols p = true) (hh : matEps ≤ h p)
    (hu : 0 ≤ u p) (ha : aspect ele rows cols p ≠ 0) :
    ((min (pytrunc (u p / res)) max_offset).toNat : ℤ) =
      min ⌊u p / res⌋ max_offset ∧
    infLand ele u res max_offset rows cols p =
      walk (aspect ele rows cols) p
        (min (pytrunc (u p / res)) max_offset).toNat ∧
    (∀ q, (fracd8_inf ele u h res max_offset rows cols).1 q =
      ((interiorCells rows cols).map
        (fun s => infContrib u h res max_offset
          (aspect ele rows cols) s q)).sum) ∧
    (aspect ele rows cols (infLand ele u res max_offset rows cols p) ≠ 0 →
      infNext ele u res max_offset rows cols p ≠
        infLand ele u res max_offset rows cols p ∧
      infContrib u h res max_offset (aspect ele rows cols) p
          (infLand ele u res max_offset rows cols p) =
        h p * (1 - (u p / res - (⌊u p / res⌋ : ℚ))) ∧
      infContrib u h res max_offset (aspect ele rows cols) p
          (infNext ele u res max_offset rows cols p) =
        h p * (u p / res - (⌊u p / res⌋ : ℚ))) := by
  have hfnn : 0 ≤ u p / res := div_nonneg hu hres.le
  have hfloor : pytrunc (u p / res) = ⌊u p / res⌋ := by
    unfold pytrunc
    rw [if_pos hfnn]
  have hmin0 : 0 ≤ min (pytrunc (u p / res)) max_offset := by
    refine le_min ?_ hmo
    rw [hfloor]
    exact Int.floor_nonneg.mpr hfnn
  have hnlt : ¬ h p < matEps := not_lt.mpr hh
  refine ⟨?_, rfl,
    fun q => fracd8_inf_eq_sum ele u h res max_offset rows cols q, ?_⟩
  · rw [Int.toNat_of_nonneg hmin0, hfloor]
  · intro hland
    obtain ⟨hl1, hl8⟩ := aspect_range ele rows cols _ hland
    have hne : infNext ele u res max_offset rows cols p ≠
        infLand ele u res max_offset rows cols p := by
      unfold infNext
      exact position_ne_self _ _ hl1 hl8
    refine ⟨hne, ?_, ?_⟩
    · rw [infContrib_eligible ele u h res max_offset rows cols p _ hnlt ha,
        if_neg (Ne.symm hne), hfloor]
      simp
    · rw [infContrib_eligible ele u h res max_offset rows cols p _ hnlt ha,
        if_neg hne, hfloor]
      simp

/-- Witness for C3 on the tilted 5 x 5 plane: the source `(2, 1)` with
velocity 1.5 walks one hop and splits `1/2`-`1/2` around the landing
cell. -/
theorem C3_witness :
    ((0 : ℚ) < 1 ∧ (0 : ℤ) ≤ 3 ∧ isInterior 5 5 (2, 1) = true ∧
      matEps ≤ hSrc (2, 1) ∧ (0 : ℚ) ≤ uC3 (2, 1) ∧
      aspect eleTilt 5 5 (2, 1) ≠ 0) ∧
    (((min (pytrunc (uC3 (2, 1) / 1)) 3).toNat : ℤ) =
      min ⌊uC3 (2, 1) / 1⌋ 3 ∧
    infLand eleTilt uC3 1 3 5 5 (2, 1) =
      walk (aspect eleTilt 5 5) (2, 1)
        (min (pytrunc (uC3 (2, 1) / 1)) 3).toNat ∧
    (∀ q, (fracd8_inf eleTilt uC3 hSrc 1 3 5 5).1 q =
      ((interiorCells 5 5).map
        (fun s => infContrib uC3 hSrc 1 3 (aspect eleTilt 5 5) s q)).sum) ∧
    (aspect eleTilt 5 5 (infLand eleTilt uC3 1 3 5 5 (2, 1)) ≠ 0 →
      infNext eleTilt uC3 1 3 5 5 (2, 1) ≠
        infLand eleTilt uC3 1 3 5 5 (2, 1) ∧
      infContrib uC3 hSrc 1 3 (aspect eleTilt 5 5) (2, 1)
          (infLand eleTilt uC3 1 3 5 5 (2, 1)) =
        hSrc (2, 1) * (1 - (uC3 (2, 1) / 1 - (⌊uC3 (2, 1) / 1⌋ : ℚ))) ∧
      infContrib uC3 hSrc 1 3 (aspect eleTilt 5 5) (2, 1)
          (infNext eleTilt uC3 1 3 5 5 (2, 1)) =
        hSrc (2, 1) * (uC3 (2, 1) / 1 - (⌊uC3 (2, 1) / 1⌋ : ℚ)))) :=
  ⟨⟨by norm_num, by norm_num, by decide,
    by norm_num [matEps, hSrc],
    by norm_num [uC3],
    by norm_num [aspect, isInterior, aspCell, aspScanStep, dropAt, pos8,
      eleTilt, List.range', List.foldl, Prod.ext_iff]⟩,
   C3_fracd8_inf_hop_walk eleTilt uC3 hSrc 1 3 5 5 (2, 1)
     (by norm_num) (by norm_num) (by decide)
     (by norm_num [matEps, hSrc])
     (by norm_num [uC3])
     (by norm_num [aspect, isInterior, aspCell, aspScanStep, dropAt, pos8,
       eleTilt, List.range', List.foldl, Prod.ext_iff])⟩

/-- Sub-threshold thickness at the centre of a 3 x 3 grid. -/
def hTiny : Grid := fun p => if p = (1, 1) then 1 / 200000 else 0

/-- Thickness sitting on the border corner of a 3 x 3 grid. -/
def hBorder : Grid := fun p => if p = (0, 0) then 5 else 0

/-- C5 counterexample: a 3 x 3 cone whose single interior cell is not a pit
loses 99.99 percent of the interior mass in one `fracd8_lim` call (the flow
exits into the border ring), far beyond any 10 percent tolerance. -/
theorem C5_counterexample :
    aspCell eleCone 1 1 ≠ 0 ∧
    interiorMass hCenter 3 3 = 1 ∧
    interiorMass ((fracd8_lim eleCone onesGrid hCenter 1 3 3).1) 3 3 =
      1 / 10000 ∧
    interiorMass ((fracd8_lim eleCone onesGrid hCenter 1 3 3).1) 3 3 <
      (9 / 10) * interiorMass hCenter 3 3 := by
  refine ⟨?_, ?_, ?_, ?_⟩ <;>
    norm_num [interiorMass, fracd8_lim, interiorCells, limStep, aspCell,
      aspScanStep, dropAt, pos8, eleCone, onesGrid, hCenter, matEps, addAt,
      List.range', List.foldl, Prod.ext_iff]

/-- C5 amended: one `fracd8_lim` call conserves mass exactly up to boundary
and threshold effects — the total output mass over the whole grid equals
the input thickness summed over interior cells at or above the 1e-5
threshold; with no sub-threshold interior cells that is exactly the
interior input mass, so interior mass changes only by deposits into the
border ring (pit cells lose nothing), with no general 10 percent bound. -/
theorem C5_fracd8_lim_mass_accounting (ele u h : Grid) (res : ℚ)
    (rows cols : ℕ) :
    totalMass ((fracd8_lim ele u h res rows cols).1) rows cols =
      ((interiorCells rows cols).map
        (fun p => if h p < matEps then 0 else h p)).sum ∧
    ((∀ p ∈ interiorCells rows cols, ¬ h p < matEps) →
      totalMass ((fracd8_lim ele u h res rows cols).1) rows cols =
        interiorMass h rows cols) := by
  refine ⟨fracd8_lim_total_mass_eq ele u h res rows cols, ?_⟩
  intro hthr
  rw [fracd8_lim_total_mass_eq ele u h res rows cols]
  unfold interiorMass
  apply congrArg List.sum
  apply List.map_congr_left
  intro p hp
  rw [if_neg (hthr p hp)]

/-- Witness for the amended C5 on the 3 x 3 cone with unit thickness. -/
theorem C5_witness :
    (∀ p ∈ interiorCells 3 3, ¬ hCenter p < matEps) ∧
    totalMass ((fracd8_lim eleCone onesGrid hCenter 1 3 3).1) 3 3 =
      interiorMass hCenter 3 3 := by
  have hthr : ∀ p ∈ interiorCells 3 3, ¬ hCenter p < matEps := by
    norm_num [interiorCells, List.range', hCenter, matEps, Prod.ext_iff]
  exact ⟨hthr,
    (C5_fracd8_lim_mass_accounting eleCone onesGrid hCenter 1 3 3).2 hthr⟩

/-- C6 counterexample: a sub-threshold interior cell does not retain its
mass — `fracd8_lim` skips it entirely, so its thickness is absent from the
zero-initialised output (the output at the cell is 0, not its own mass). -/
theorem C6_counterexample :
    hTiny (1, 1) < matEps ∧
    hTiny (1, 1) ≠ 0 ∧
    (fracd8_lim eleCone onesGrid hTiny 1 3 3).1 (1, 1) = 0 ∧
    (fracd8_lim eleCone onesGrid hTiny 1 3 3).1 (1, 1) ≠ hTiny (1, 1) := by
  refine ⟨?_, ?_, ?_, ?_⟩ <;>
    norm_num [fracd8_lim, interiorCells, limStep, aspCell, aspScanStep,
      dropAt, pos8, eleCone, onesGrid, hTiny, matEps, addAt, List.range',
      List.foldl, Prod.ext_iff]

/-- C6 amended: an interior pit cell at or above the threshold keeps its
own mass plus inflow; a sub-threshold interior cell has no outflow to any
neighbour, but its own mass is dropped — its output is the inflow alone. -/
theorem C6_pit_and_threshold_cells (ele u h : Grid) (res : ℚ)
    (rows cols : ℕ) (p : Pos) (hint : isInterior rows cols p = true) :
    (matEps ≤ h p → aspCell ele p.1 p.2 = 0 →
      (fracd8_lim ele u h res rows cols).1 p =
        h p + ((interiorCells rows cols).map
          (fun s => if s = p then 0 else limContrib ele u h res s p)).sum) ∧
    (h p < matEps →
      (fracd8_lim ele u h res rows cols).1 p =
        ((interiorCells rows cols).map
          (fun s => if s = p then 0 else limContrib ele u h res s p)).sum) := by
  have hmem : p ∈ interiorCells rows cols :=
    (mem_interiorCells rows cols p).mpr hint
  have hdecomp :
      ((interiorCells rows cols).map
        (fun s => limContrib ele u h res s p)).sum =
      limContrib ele u h res p p +
        ((interiorCells rows cols).map
          (fun s => if s = p then 0 else limContrib ele u h res s p)).sum :=
    sum_map_split_at _ p _ (interiorCells_nodup rows cols) hmem
  constructor
  · intro hthr hpit
    rw [fracd8_lim_eq_sum, hdecomp]
    have hself : limContrib ele u h res p p = h p := by
      simp only [limContrib]
      rw [if_neg (not_lt.mpr hthr), if_pos hpit]
      simp
    rw [hself]
  · intro hthr
    rw [fracd8_lim_eq_sum, hdecomp]
    have hself : limContrib ele u h res p p = 0 := by
      simp only [limContrib]
      rw [if_pos hthr]
    rw [hself, zero_add]

/-- Witness for the amended C6: the centre of a flat 3 x 3 grid is a pit
and keeps its unit mass. -/
theorem C6_witness :
    isInterior 3 3 (1, 1) = true ∧
    ((matEps ≤ hCenter (1, 1) → aspCell zeroGrid 1 1 = 0 →
      (fracd8_lim zeroGrid onesGrid hCenter 1 3 3).1 (1, 1) =
        hCenter (1, 1) + ((interiorCells 3 3).map
          (fun s => if s = (1, 1) then 0
            else limContrib zeroGrid onesGrid hCenter 1 s (1, 1))).sum) ∧
    (hCenter (1, 1) < matEps →
      (fracd8_lim zeroGrid onesGrid hCenter 1 3 3).1 (1, 1) =
        ((interiorCells 3 3).map
          (fun s => if s = (1, 1) then 0
            else limContrib zeroGrid onesGrid hCenter 1 s (1, 1))).sum)) :=
  ⟨by decide,
   C6_pit_and_threshold_cells zeroGrid onesGrid hCenter 1 3 3 (1, 1)
     (by decide)⟩

/-- C7 counterexample: the border ring is not copied through a routing
call — input border thickness 5 at the corner comes out as 0. -/
theorem C7_counterexample :
    hBorder (0, 0) = 5 ∧
    (fracd8_lim eleCone onesGrid hBorder 1 3 3).1 (0, 0) = 0 ∧
    (fracd8_lim eleCone onesGrid hBorder 1 3 3).1 (0, 0) ≠ hBorder (0, 0) := by
  refine ⟨?_, ?_, ?_⟩ <;>
    norm_num [fracd8_lim, interiorCells, limStep, aspCell, aspScanStep,
      dropAt, pos8, eleCone, onesGrid, hBorder, matEps, addAt, List.range',
      List.foldl, Prod.ext_iff]

/-- C7 amended: routing never classifies a border cell (its direction is
0) and never routes from it; the border of the output thickness grid is
not the input border value but the zero-initialised scatter-add inflow
received from interior sources. -/
theorem C7_border_not_copied (ele u h : Grid) (res : ℚ) (rows cols : ℕ)
    (q : Pos) (hq : isInterior rows cols q = false) :
    (fracd8_lim ele u h res rows cols).2 q = 0 ∧
    (fracd8_lim ele u h res rows cols).1 q =
      ((interiorCells rows cols).map
        (fun s => limContrib ele u h res s q)).sum := by
  constructor
  · simp [fracd8_lim, classify_aspect, hq]
  · exact fracd8_lim_eq_sum ele u h res rows cols q

/-- Witness for the amended C7 at the corner of a 3 x 3 grid. -/
theorem C7_witness :
    isInterior 3 3 ((0 : ℤ), (0 : ℤ)) = false ∧
    ((fracd8_lim eleCone onesGrid hBorder 1 3 3).2 (0, 0) = 0 ∧
    (fracd8_lim eleCone onesGrid hBorder 1 3 3).1 (0, 0) =
      ((interiorCells 3 3).map
        (fun s => limContrib eleCone onesGrid hBorder 1 s (0, 0))).sum) :=
  ⟨by decide,
   C7_border_not_copied eleCone onesGrid hBorder 1 3 3 (0, 0) (by decide)⟩

/-- C8: calling `simulate` while not in steady state warns and leaves the
whole model state untouched — the returned state is the input state, every
field included, and the precondition-violation flag is reported. -/
theorem C8_simulate_requires_steady
    (iterate : ModelState → ℚ → ℕ → ModelState) (s : ModelState)
    (temp_change : ℚ) (max_years : ℕ) (hs : s.steady_state = false) :
    simulate iterate s temp_change max_years = (s, true) := by
  simp [simulate, hs]

/-- A freshly constructed model state: year 0, not steady, zeroed grids and
statistics, as `_setup_params` / `_setup_arrays` / `_setup_stats` leave
them. -/
def initialState : ModelState :=
  { i := 0, steady_state := false, ela := 2850, ele := zeroGrid,
    h := zeroGrid, u := zeroGrid, mass := [0], mass_balance := [0],
    mass_balance_s_trend := [0], mass_balance_l_trend := [0] }

/-- Witness for C8 on a freshly constructed model. -/
theorem C8_witness :
    initialState.steady_state = false ∧
    simulate (fun s _ _ => s) initialState 10 10 = (initialState, true) :=
  ⟨rfl, C8_simulate_requires_steady (fun s _ _ => s) initialState 10 10 rfl⟩

/-- C9: pushing `capacity + 1` snapshots into an empty history buffer of
capacity at least 1 retains exactly the last `capacity` snapshots (the
oldest is evicted, FIFO by insertion age), the most recent push is
retrievable via the peek operation, and the buffer mean is the elementwise
average of exactly the retained snapshots. -/
theorem C9_history_buffer_eviction (size : ℕ) (layers : List Grid)
    (hs : 1 ≤ size) (hl : layers.length = size + 1) :
    (layers.foldl LiFoStack.push ⟨size, []⟩).stack = layers.drop 1 ∧
    (layers.foldl LiFoStack.push ⟨size, []⟩).stack.length = size ∧
    (layers.foldl LiFoStack.push ⟨size, []⟩).pop = layers.getLast? ∧
    (∀ q, storeMean (layers.foldl LiFoStack.push ⟨size, []⟩) q =
      ((layers.drop 1).map (fun g => g q)).sum / (size : ℚ)) := by
  obtain ⟨hstack, -⟩ :=
    foldl_push_stack layers (⟨size, []⟩ : LiFoStack Grid) (by simp)
  rw [List.nil_append] at hstack
  have hsz : (⟨size, []⟩ : LiFoStack Grid).size = size := rfl
  have hstack1 : (layers.foldl LiFoStack.push ⟨size, []⟩).stack =
      layers.drop 1 := by
    rw [hstack, hsz, hl]
    congr 1
    omega
  have hlen : (layers.drop 1).length = size := by
    rw [List.length_drop, hl]
    omega
  refine ⟨hstack1, by rw [hstack1, hlen], ?_, ?_⟩
  · show (layers.foldl LiFoStack.push ⟨size, []⟩).stack.getLast? = _
    rw [hstack1]
    obtain ⟨a, rest, rfl⟩ : ∃ a rest, layers = a :: rest := by
      cases layers with
      | nil => simp at hl
      | cons a rest => exact ⟨a, rest, rfl⟩
    obtain ⟨b, t, rfl⟩ : ∃ b t, rest = b :: t := by
      cases rest with
      | nil =>
        simp at hl
        omega
      | cons b t => exact ⟨b, t, rfl⟩
    simp only [List.drop_one, List.tail_cons, List.getLast?_cons_cons]
  · intro q
    unfold storeMean
    rw [hstack1, hlen]

/-- Three distinct constant snapshots for the C9 witness. -/
def w9 : List Grid := [fun _ => 1, fun _ => 2, fun _ => 3]

/-- Witness for C9: capacity 2, three snapshots pushed. -/
theorem C9_witness :
    (1 ≤ 2 ∧ w9.length = 2 + 1) ∧
    ((w9.foldl LiFoStack.push ⟨2, []⟩).stack = w9.drop 1 ∧
     (w9.foldl LiFoStack.push ⟨2, []⟩).stack.length = 2 ∧
     (w9.foldl LiFoStack.push ⟨2, []⟩).pop = w9.getLast? ∧
     (∀ q, storeMean (w9.foldl LiFoStack.push ⟨2, []⟩) q =
       ((w9.drop 1).map (fun g => g q)).sum / ((2 : ℕ) : ℚ))) :=
  ⟨⟨by norm_num, by simp [w9]⟩,
   C9_history_buffer_eviction 2 w9 (by norm_num) (by simp [w9])⟩

/-- C10 counterexample: in the velocity step the deformation velocity is
divided by 100, not halved — with unit parameters and resolution 1 the
computed velocity is `1/200`, while halving (capped at any
`(max_hops + 1) * resolution ≥ 1`) would give `1/4`. -/
theorem C10_counterexample :
    velocityStep 1 1 1 1 onesGrid onesGrid 1 (0, 0) = 1 / 200 ∧
    ((2 * 1 * ((1 * 1 * 1 * onesGrid ((0 : ℤ), (0 : ℤ))) ^ (3 : ℕ)) *
      (onesGrid ((0 : ℤ), (0 : ℤ))) ^ (4 : ℕ)) / 4) / 2 = 1 / 4 ∧
    velocityStep 1 1 1 1 onesGrid onesGrid 1 (0, 0) ≠ 1 / 4 := by
  refine ⟨?_, ?_, ?_⟩ <;> norm_num [velocityStep, onesGrid]

/-- C10 amended: the per-year velocity step caps every cell at
`0.99 * resolution` (hence below `(max_hops + 1) * resolution` for every
`max_hops ≥ 0` when the resolution is nonnegative), and the deformation
velocity is scaled by `1/100`, not halved, below the cap. -/
theorem C10_velocity_cap (a f p g : ℚ) (sinSlp h : Grid) (res : ℚ)
    (q : Pos) (hres : 0 ≤ res) :
    velocityStep a f p g sinSlp h res q ≤ 99 / 100 * res ∧
    (∀ mh : ℕ, velocityStep a f p g sinSlp h res q ≤ ((mh : ℚ) + 1) * res) ∧
    ((2 * a * ((f * p * g * sinSlp q) ^ (3 : ℕ)) * (h q) ^ (4 : ℕ)) / 4 / 100
        ≤ 99 / 100 * res →
      velocityStep a f p g sinSlp h res q =
        (2 * a * ((f * p * g * sinSlp q) ^ (3 : ℕ)) *
          (h q) ^ (4 : ℕ)) / 4 / 100) := by
  have hcap : velocityStep a f p g sinSlp h res q ≤ 99 / 100 * res := by
    simp only [velocityStep]
    split_ifs with hc
    · exact le_refl _
    · exact not_lt.mp hc
  refine ⟨hcap, ?_, ?_⟩
  · intro mh
    refine le_trans hcap ?_
    have h1 : (99 / 100 : ℚ) ≤ (mh : ℚ) + 1 := by
      have := Nat.cast_nonneg (α := ℚ) mh
      linarith
    exact mul_le_mul_of_nonneg_right h1 hres
  · intro hle
    simp only [velocityStep]
    rw [if_neg (not_lt.mpr hle)]

/-- Witness for the amended C10 with unit parameters and resolution 1. -/
theorem C10_witness :
    (0 : ℚ) ≤ 1 ∧
    (velocityStep 1 1 1 1 onesGrid onesGrid 1 (0, 0) ≤ 99 / 100 * 1 ∧
    (∀ mh : ℕ,
      velocityStep 1 1 1 1 onesGrid onesGrid 1 (0, 0) ≤ ((mh : ℚ) + 1) * 1) ∧
    ((2 * 1 * ((1 * 1 * 1 * onesGrid ((0 : ℤ), (0 : ℤ))) ^ (3 : ℕ)) *
        (onesGrid ((0 : ℤ), (0 : ℤ))) ^ (4 : ℕ)) / 4 / 100 ≤ 99 / 100 * 1 →
      velocityStep 1 1 1 1 onesGrid onesGrid 1 (0, 0) =
        (2 * 1 * ((1 * 1 * 1 * onesGrid ((0 : ℤ), (0 : ℤ))) ^ (3 : ℕ)) *
          (onesGrid ((0 : ℤ), (0 : ℤ))) ^ (4 : ℕ)) / 4 / 100)) :=
  ⟨by norm_num,
   C10_velocity_cap 1 1 1 1 onesGrid onesGrid 1 (0, 0) (by norm_num)⟩

end GFM
